import Mathlib

/-!
Verification development for `s3-upload-folders.js`, a bulk uploader that
scans a set of configured root folders, chunks the discovered file list into
batches of size `concurrency`, and uploads each file with a bounded
retry-on-failure loop.

The definitions below are a shallow embedding of the source functions:
`uploadFile` (lines 136-167), `processBatch` (lines 170-183), the key
resolution `path.relative(...).replace(/\\/g,'/')` (lines 140-141),
`getContentType` (lines 104-133, tracked only as a per-attempt computation
count), `getAllFiles` / `scanDir` (lines 67-101), and the summary arithmetic
of `main` (lines 204-233).
-/

namespace S3UploadFolders

/-- What happens inside one iteration of `uploadFile`'s try block
(src lines 137-154), indexed by the attempt's `retryCount`.
`readError` models any exception raised before the sink call
(`fs.readFileSync`, `path.relative`, `getContentType`, or an arbitrary
programming error in that span); `sinkError` models an exception thrown by
`s3Client.send` (the abstract sink); `ok` models a successful sink call.
The `catch` block (lines 155-166) treats all thrown errors alike. -/
inductive AttemptResult where
  | readError
  | sinkError
  | ok
deriving DecidableEq, Repr

/-- Observable effects of one `uploadFile(filePath, retryCount)` call, run to
its terminal outcome. `sinkCalls` counts `s3Client.send` invocations (line
151); `readCalls` counts `fs.readFileSync` invocations, i.e. attempts started
(line 139); `keyComputations` counts how often the key and content type were
(re)computed (lines 140-147), which happens exactly on attempts that get past
the read; `sleepMs` totals the `setTimeout(config.retryDelay)` waits (line
158); `uploadedInc` / `failedInc` are the increments applied to the global
`uploadedFiles` / `failedFiles` counters (lines 152, 161). -/
structure UploadResult where
  success : Bool
  sinkCalls : Nat
  readCalls : Nat
  keyComputations : Nat
  sleepMs : Nat
  uploadedInc : Nat
  failedInc : Nat
deriving DecidableEq, Repr

/-- Recursion core of `uploadFile` (src lines 136-167), structural in
`remaining := config.retryAttempts - retryCount`: the JS guard
`retryCount < config.retryAttempts` (line 156) holds exactly when
`remaining ≠ 0`, and the recursive call `uploadFile(filePath, retryCount+1)`
(line 159) runs with `remaining - 1`.
On `ok`: the sink call succeeded, `uploadedFiles++`, return `true`.
On a failure with `remaining = 0`: `failedFiles++`, return `false`.
On a failure with retries left: sleep `retryDelay` ms and retry; the retried
call re-reads the file and recomputes key and content type from scratch. -/
def uploadFileGo (env : Nat → AttemptResult) (retryDelay : Nat) :
    (remaining : Nat) → (retryCount : Nat) → UploadResult
  | 0, retryCount =>
    match env retryCount with
    | .ok => ⟨true, 1, 1, 1, 0, 1, 0⟩
    | .sinkError => ⟨false, 1, 1, 1, 0, 0, 1⟩
    | .readError => ⟨false, 0, 1, 0, 0, 0, 1⟩
  | remaining + 1, retryCount =>
    match env retryCount with
    | .ok => ⟨true, 1, 1, 1, 0, 1, 0⟩
    | .sinkError =>
      let r := uploadFileGo env retryDelay remaining (retryCount + 1)
      ⟨r.success, r.sinkCalls + 1, r.readCalls + 1, r.keyComputations + 1,
        r.sleepMs + retryDelay, r.uploadedInc, r.failedInc⟩
    | .readError =>
      let r := uploadFileGo env retryDelay remaining (retryCount + 1)
      ⟨r.success, r.sinkCalls, r.readCalls + 1, r.keyComputations,
        r.sleepMs + retryDelay, r.uploadedInc, r.failedInc⟩

/-- `uploadFile(filePath, retryCount)` (src lines 136-167) under an
environment `env` giving the result of each attempt, with configuration
`retryDelay` (= `config.retryDelay`) and `retryAttempts`
(= `config.retryAttempts`). The top-level call site uses `retryCount = 0`
(line 181 passes only the file). -/
def uploadFile (env : Nat → AttemptResult) (retryDelay retryAttempts retryCount : Nat) :
    UploadResult :=
  uploadFileGo env retryDelay (retryAttempts - retryCount) retryCount

theorem uploadFileGo_allSinkFail (env : Nat → AttemptResult) (d : Nat) :
    ∀ remaining retryCount,
      (∀ i, retryCount ≤ i → i ≤ retryCount + remaining → env i = .sinkError) →
      uploadFileGo env d remaining retryCount =
        ⟨false, remaining + 1, remaining + 1, remaining + 1, remaining * d, 0, 1⟩ := by
  intro remaining
  induction remaining with
  | zero =>
    intro c h
    have hc : env c = .sinkError := h c le_rfl (by omega)
    simp [uploadFileGo, hc]
  | succ n ih =>
    intro c h
    have hc : env c = .sinkError := h c le_rfl (by omega)
    have hr := ih (c + 1) (fun i h1 h2 => h i (by omega) (by omega))
    simp [uploadFileGo, hc, hr, Nat.succ_mul]

theorem uploadFileGo_allReadFail (env : Nat → AttemptResult) (d : Nat) :
    ∀ remaining retryCount,
      (∀ i, retryCount ≤ i → i ≤ retryCount + remaining → env i = .readError) →
      uploadFileGo env d remaining retryCount =
        ⟨false, 0, remaining + 1, 0, remaining * d, 0, 1⟩ := by
  intro remaining
  induction remaining with
  | zero =>
    intro c h
    have hc : env c = .readError := h c le_rfl (by omega)
    simp [uploadFileGo, hc]
  | succ n ih =>
    intro c h
    have hc : env c = .readError := h c le_rfl (by omega)
    have hr := ih (c + 1) (fun i h1 h2 => h i (by omega) (by omega))
    simp [uploadFileGo, hc, hr, Nat.succ_mul]

theorem uploadFileGo_succeedsAt (env : Nat → AttemptResult) (d : Nat) :
    ∀ k remaining retryCount, k ≤ remaining →
      (∀ i, retryCount ≤ i → i < retryCount + k → env i = .sinkError) →
      env (retryCount + k) = .ok →
      uploadFileGo env d remaining retryCount = ⟨true, k + 1, k + 1, k + 1, k * d, 1, 0⟩ := by
  intro k
  induction k with
  | zero =>
    intro remaining c _ _ hok
    rw [Nat.add_zero] at hok
    cases remaining <;> simp [uploadFileGo, hok]
  | succ n ih =>
    intro remaining c hk h hok
    obtain ⟨rem, rfl⟩ : ∃ rem, remaining = rem + 1 := ⟨remaining - 1, by omega⟩
    have hc : env c = .sinkError := h c le_rfl (by omega)
    have hr := ih rem (c + 1) (by omega)
      (fun i h1 h2 => h i (by omega) (by omega))
      (by rw [show c + 1 + n = c + (n + 1) by omega]; exact hok)
    simp [uploadFileGo, hc, hr, Nat.succ_mul]

theorem uploadFileGo_inc_one (env : Nat → AttemptResult) (d : Nat) :
    ∀ remaining retryCount,
      (uploadFileGo env d remaining retryCount).uploadedInc
        + (uploadFileGo env d remaining retryCount).failedInc = 1 := by
  intro remaining
  induction remaining with
  | zero => intro c; cases h : env c <;> simp [uploadFileGo, h]
  | succ n ih => intro c; cases h : env c <;> simp [uploadFileGo, h, ih (c + 1)]

/-- Claim C2: with `r = retryAttempts` and delay `d`, a transfer unit whose
sink call fails on every attempt performs exactly `r + 1` sink calls, sleeps
`d` ms between consecutive attempts (`r` sleeps, `r * d` ms in total), and
produces exactly one `Failure` outcome (one `failedFiles` increment, no
`uploadedFiles` increment); a unit whose sink succeeds on attempt `k`
(1-based, `k ≤ r`, all earlier attempts failing at the sink) performs exactly
`k` sink calls, sleeps `(k - 1) * d` ms, and produces exactly one `Success`
outcome with no further attempts after it (`k` reads in total). -/
theorem uploadFile_retry_bound (env : Nat → AttemptResult) (d r : Nat) :
    ((∀ i, i ≤ r → env i = .sinkError) →
      uploadFile env d r 0 = ⟨false, r + 1, r + 1, r + 1, r * d, 0, 1⟩)
    ∧ (∀ k, 1 ≤ k → k ≤ r →
        (∀ i, i < k - 1 → env i = .sinkError) → env (k - 1) = .ok →
        uploadFile env d r 0 = ⟨true, k, k, k, (k - 1) * d, 1, 0⟩) := by
  constructor
  · intro h
    unfold uploadFile
    rw [Nat.sub_zero]
    exact uploadFileGo_allSinkFail env d r 0 (fun i _ h2 => h i (by omega))
  · intro k hk1 hkr h hok
    unfold uploadFile
    rw [Nat.sub_zero]
    have := uploadFileGo_succeedsAt env d (k - 1) r 0 (by omega)
      (fun i _ h2 => h i (by omega)) (by rw [Nat.zero_add]; exact hok)
    rw [this]
    have : k - 1 + 1 = k := by omega
    rw [this]

/-- Witness for C2 at `retryAttempts = 2`, `retryDelay = 10`: an
always-sink-failing unit makes 3 sink calls, sleeps 20 ms, one failure; a
unit failing once then succeeding (attempt `k = 2 ≤ 2`) makes 2 sink calls,
sleeps 10 ms, one success. -/
theorem uploadFile_retry_bound_witness :
    uploadFile (fun _ => .sinkError) 10 2 0 = ⟨false, 3, 3, 3, 20, 0, 1⟩
    ∧ uploadFile (fun i => if i = 0 then .sinkError else .ok) 10 2 0 =
        ⟨true, 2, 2, 2, 10, 1, 0⟩ :=
  ⟨(uploadFile_retry_bound (fun _ => .sinkError) 10 2).1 (fun _ _ => rfl),
   (uploadFile_retry_bound (fun i => if i = 0 then .sinkError else .ok) 10 2).2
      2 (by omega) (by omega)
      (fun i hi => by interval_cases i; rfl) (by rfl)⟩

/-- The batch list built by `processBatch` (src lines 172-177):
`for (let i = 0; i < files.length; i += batchSize) batches.push(files.slice(i, i + batchSize))`,
with `files.slice(i, i + batchSize)` embedded as `(files.drop i).take batchSize`.
The extra `0 < batchSize` conjunct in the guard is the termination condition
of the model: with `batchSize = 0` the JS loop never advances `i` and
diverges, a case no claim exercises (every claim assumes positive
concurrency). -/
def batchesFrom (files : List α) (batchSize : Nat) (i : Nat) : List (List α) :=
  if h : i < files.length ∧ 0 < batchSize then
    (files.drop i).take batchSize :: batchesFrom files batchSize (i + batchSize)
  else []
termination_by files.length - i
decreasing_by omega

/-- `processBatch(files)` (src lines 170-183): the batches are processed
strictly in sequence (`for (const batch of batches) await Promise.all(...)`),
each batch mapping every file to `uploadFile(file)` (retryCount 0). The
result list concatenates the per-batch outcome lists in batch order, so group
`i`'s transfer units all settle before group `i + 1` starts. -/
def processBatch (envOf : α → Nat → AttemptResult) (retryDelay retryAttempts batchSize : Nat)
    (files : List α) : List UploadResult :=
  (batchesFrom files batchSize 0).flatMap
    (fun batch => batch.map (fun f => uploadFile (envOf f) retryDelay retryAttempts 0))

/-- Final value of the global `uploadedFiles` counter (src line 53, bumped at
line 152) over a list of settled transfer units. -/
def uploadedFiles (results : List UploadResult) : Nat :=
  (results.map UploadResult.uploadedInc).sum

/-- Final value of the global `failedFiles` counter (src line 54, bumped at
line 161) over a list of settled transfer units. -/
def failedFiles (results : List UploadResult) : Nat :=
  (results.map UploadResult.failedInc).sum

theorem batchesFrom_join (files : List α) (c : Nat) (hc : 0 < c) (i : Nat) :
    (batchesFrom files c i).flatten = files.drop i := by
  rw [batchesFrom]
  split
  · next h =>
    have ih := batchesFrom_join files c hc (i + c)
    rw [List.flatten_cons, ih, ← List.drop_drop, List.take_append_drop]
  · next h =>
    have : files.length ≤ i := by omega
    simp [List.drop_eq_nil_of_le this]
termination_by files.length - i
decreasing_by omega

theorem batchesFrom_mem (files : List α) (c : Nat) (i : Nat) :
    ∀ b ∈ batchesFrom files c i, b ≠ [] ∧ b.length ≤ c := by
  rw [batchesFrom]
  split
  · next h =>
    intro b hb
    rcases List.mem_cons.mp hb with rfl | hb
    · constructor
      · have hlen : (files.drop i).length = files.length - i := List.length_drop ..
        intro hnil
        rw [← List.length_eq_zero] at hnil
        rw [List.length_take, hlen] at hnil
        omega
      · rw [List.length_take]; omega
    · exact batchesFrom_mem files c (i + c) b hb
  · intro b hb; simp at hb
termination_by files.length - i
decreasing_by omega

theorem batchesFrom_full_of_not_last (files : List α) (c : Nat) :
    ∀ i pre b suf, batchesFrom files c i = pre ++ b :: suf → suf ≠ [] → b.length = c := by
  intro i
  rw [batchesFrom]
  split
  · next h =>
    intro pre b suf heq hsuf
    cases pre with
    | nil =>
      rw [List.nil_append] at heq
      obtain ⟨rfl, htl⟩ : (files.drop i).take c = b
          ∧ batchesFrom files c (i + c) = suf := by
        exact ⟨(List.cons.injEq .. ▸ heq).1, (List.cons.injEq .. ▸ heq).2⟩
      -- a nonempty tail means the loop ran again, so i + c < files.length
      have hnext : i + c < files.length := by
        by_contra hge
        rw [batchesFrom] at htl
        rw [dif_neg (by omega)] at htl
        exact hsuf htl.symm
      rw [List.length_take, List.length_drop]
      omega
    | cons p pre =>
      rw [List.cons_append] at heq
      have htl : batchesFrom files c (i + c) = pre ++ b :: suf :=
        (List.cons.injEq .. ▸ heq).2
      exact batchesFrom_full_of_not_last files c (i + c) pre b suf htl hsuf
  · intro pre b suf heq hsuf
    exact absurd heq.symm (by simp)
termination_by i => files.length - i
decreasing_by omega

theorem batchesFrom_flatMap_map (g : α → β) (files : List α) (c : Nat) (hc : 0 < c)
    (i : Nat) :
    (batchesFrom files c i).flatMap (fun b => b.map g) = (files.drop i).map g := by
  rw [batchesFrom]
  split
  · next h =>
    have ih := batchesFrom_flatMap_map g files c hc (i + c)
    rw [List.flatMap_cons, ih, ← List.map_append, ← List.drop_drop,
      List.take_append_drop]
  · next h =>
    have : files.length ≤ i := by omega
    simp [List.drop_eq_nil_of_le this]
termination_by files.length - i
decreasing_by omega

theorem processBatch_eq_map (envOf : α → Nat → AttemptResult) (d r c : Nat)
    (files : List α) (hc : 0 < c) :
    processBatch envOf d r c files
      = files.map (fun f => uploadFile (envOf f) d r 0) := by
  unfold processBatch
  rw [batchesFrom_flatMap_map _ files c hc 0, List.drop_zero]

theorem uploadFile_inc_one (env : Nat → AttemptResult) (d r c0 : Nat) :
    (uploadFile env d r c0).uploadedInc + (uploadFile env d r c0).failedInc = 1 :=
  uploadFileGo_inc_one env d (r - c0) c0

theorem uploadedFiles_add_failedFiles (rs : List UploadResult)
    (h : ∀ x ∈ rs, x.uploadedInc + x.failedInc = 1) :
    uploadedFiles rs + failedFiles rs = rs.length := by
  induction rs with
  | nil => simp [uploadedFiles, failedFiles]
  | cons x xs ih =>
    have hx := h x (List.mem_cons_self ..)
    have ihh := ih (fun y hy => h y (List.mem_cons_of_mem _ hy))
    simp only [uploadedFiles, failedFiles, List.map_cons, List.sum_cons,
      List.length_cons] at *
    omega

theorem processBatch_counters (envOf : α → Nat → AttemptResult) (d r c : Nat)
    (files : List α) (hc : 0 < c) :
    uploadedFiles (processBatch envOf d r c files)
      + failedFiles (processBatch envOf d r c files)
      = (processBatch envOf d r c files).length :=
  uploadedFiles_add_failedFiles _ (by
    rw [processBatch_eq_map envOf d r c files hc]
    intro x hx
    obtain ⟨f, _, rfl⟩ := List.mem_map.mp hx
    exact uploadFile_inc_one (envOf f) d r 0)

/-- Claim C1: for a run that settles every scanned file's transfer unit, the
final counters satisfy `uploadedFiles + failedFiles = files.length`, where
`files.length` is exactly the value assigned to `totalFiles` at src line 206;
and at every intermediate point of the settle sequence (after any prefix of
the terminal outcomes, each of which performs its single counter increment at
line 152 or 161) `uploadedFiles + failedFiles ≤ totalFiles` holds. -/
theorem run_counters_total (envOf : α → Nat → AttemptResult) (d r c : Nat)
    (files : List α) (hc : 0 < c) :
    uploadedFiles (processBatch envOf d r c files)
        + failedFiles (processBatch envOf d r c files) = files.length
    ∧ ∀ k, uploadedFiles ((processBatch envOf d r c files).take k)
        + failedFiles ((processBatch envOf d r c files).take k) ≤ files.length := by
  have hmap := processBatch_eq_map envOf d r c files hc
  constructor
  · rw [processBatch_counters envOf d r c files hc, hmap, List.length_map]
  · intro k
    have h1 : uploadedFiles ((processBatch envOf d r c files).take k)
        + failedFiles ((processBatch envOf d r c files).take k)
        = ((processBatch envOf d r c files).take k).length := by
      refine uploadedFiles_add_failedFiles _ ?_
      intro x hx
      have hx' := List.mem_of_mem_take hx
      rw [hmap] at hx'
      obtain ⟨f, _, rfl⟩ := List.mem_map.mp hx'
      exact uploadFile_inc_one (envOf f) d r 0
    rw [h1, List.length_take, hmap, List.length_map]
    omega

/-- Witness for C1 with three files under concurrency 2, the middle file
failing every attempt: counters close at the file count and every prefix
stays below it. -/
theorem run_counters_total_witness :
    0 < 2
    ∧ (uploadedFiles (processBatch
          (fun f _ => if f = "b" then AttemptResult.sinkError else .ok) 7 1 2
          ["a", "b", "c"])
        + failedFiles (processBatch
          (fun f _ => if f = "b" then AttemptResult.sinkError else .ok) 7 1 2
          ["a", "b", "c"]) = (["a", "b", "c"] : List String).length
      ∧ ∀ k, uploadedFiles ((processBatch
          (fun f _ => if f = "b" then AttemptResult.sinkError else .ok) 7 1 2
          ["a", "b", "c"]).take k)
        + failedFiles ((processBatch
          (fun f _ => if f = "b" then AttemptResult.sinkError else .ok) 7 1 2
          ["a", "b", "c"]).take k) ≤ (["a", "b", "c"] : List String).length) :=
  ⟨by decide,
   run_counters_total (fun f _ => if f = "b" then AttemptResult.sinkError else .ok)
      7 1 2 ["a", "b", "c"] (by decide)⟩

/-- Claim C3: for positive `concurrency = c` the scheduler's batch list
partitions the task list into consecutive groups in input order (their
concatenation is the original list), every group is nonempty of size at most
`c`, every group other than the final one has size exactly `c`, the groups
are processed strictly in sequence so the settled outcomes are exactly the
input tasks in order (bounding in-flight sink calls by the group size `≤ c`),
and a 5-task list with `c = 2` yields groups of sizes `[2, 2, 1]`. -/
theorem processBatch_partitions (envOf : α → Nat → AttemptResult) (d r : Nat)
    (files : List α) (c : Nat) (hc : 0 < c) :
    (batchesFrom files c 0).flatten = files
    ∧ (∀ b ∈ batchesFrom files c 0, b ≠ [] ∧ b.length ≤ c)
    ∧ (∀ pre b suf, batchesFrom files c 0 = pre ++ b :: suf → suf ≠ [] →
        b.length = c)
    ∧ processBatch envOf d r c files
        = files.map (fun f => uploadFile (envOf f) d r 0)
    ∧ (batchesFrom [0, 1, 2, 3, 4] 2 0).map List.length = [2, 2, 1] := by
  refine ⟨?_, batchesFrom_mem files c 0, batchesFrom_full_of_not_last files c 0,
    processBatch_eq_map envOf d r c files hc, ?_⟩
  · have := batchesFrom_join files c hc 0
    simpa using this
  · simp [batchesFrom]

/-- Witness for C3 at concurrency 2 over three tasks. -/
theorem processBatch_partitions_witness :
    0 < 2
    ∧ ((batchesFrom ["x", "y", "z"] 2 0).flatten = ["x", "y", "z"]
      ∧ (∀ b ∈ batchesFrom ["x", "y", "z"] 2 0, b ≠ [] ∧ b.length ≤ 2)
      ∧ (∀ pre b suf, batchesFrom ["x", "y", "z"] 2 0 = pre ++ b :: suf →
          suf ≠ [] → b.length = 2)
      ∧ processBatch (fun _ _ => AttemptResult.ok) 3 1 2 ["x", "y", "z"]
          = (["x", "y", "z"] : List String).map
              (fun f => uploadFile ((fun _ _ => AttemptResult.ok) f) 3 1 0)
      ∧ (batchesFrom [0, 1, 2, 3, 4] 2 0).map List.length = [2, 2, 1]) :=
  ⟨by decide,
   processBatch_partitions (fun _ _ => AttemptResult.ok) 3 1 ["x", "y", "z"] 2
      (by decide)⟩

/-- Claim C8: a transfer unit is a total function into terminal outcomes: for
every error pattern (including `readError`, which models an arbitrary
exception thrown anywhere before the sink call, e.g. a programming error) the
unit settles with exactly one outcome (one counter increment in total) and
never propagates an exception to the scheduler; consequently every group
dispatched by the scheduler settles all of its units — the result list keeps
one entry per task no matter which tasks fault. -/
theorem transfer_isolation (envOf : α → Nat → AttemptResult) (d r c : Nat)
    (files : List α) :
    (∀ env : Nat → AttemptResult,
      (uploadFile env d r 0).uploadedInc + (uploadFile env d r 0).failedInc = 1)
    ∧ (0 < c → (processBatch envOf d r c files).length = files.length) := by
  constructor
  · intro env
    exact uploadFile_inc_one env d r 0
  · intro hc
    rw [processBatch_eq_map envOf d r c files hc, List.length_map]

/-- Witness for C8: three tasks under concurrency 2 where every attempt of
every task throws before reaching the sink; all three still settle. -/
theorem transfer_isolation_witness :
    0 < 2
    ∧ (processBatch (fun _ _ => AttemptResult.readError) 0 1 2
        ["a", "b", "c"]).length = 3 :=
  ⟨by decide,
   (transfer_isolation (fun _ _ => AttemptResult.readError) 0 1 2
      ["a", "b", "c"]).2 (by decide)⟩

theorem uploadFileGo_failEquiv (env env' : Nat → AttemptResult) (d : Nat)
    (hiff : ∀ i, env i = .ok ↔ env' i = .ok) :
    ∀ remaining retryCount,
      (uploadFileGo env d remaining retryCount).success
          = (uploadFileGo env' d remaining retryCount).success
      ∧ (uploadFileGo env d remaining retryCount).readCalls
          = (uploadFileGo env' d remaining retryCount).readCalls
      ∧ (uploadFileGo env d remaining retryCount).sleepMs
          = (uploadFileGo env' d remaining retryCount).sleepMs
      ∧ (uploadFileGo env d remaining retryCount).uploadedInc
          = (uploadFileGo env' d remaining retryCount).uploadedInc
      ∧ (uploadFileGo env d remaining retryCount).failedInc
          = (uploadFileGo env' d remaining retryCount).failedInc := by
  intro remaining
  induction remaining with
  | zero =>
    intro c
    cases h : env c with
    | ok =>
      have h' : env' c = .ok := (hiff c).mp h
      simp [uploadFileGo, h, h']
    | sinkError =>
      have h' : env' c ≠ .ok := fun hh => by
        rw [(hiff c).mpr hh] at h; cases h
      cases h2 : env' c with
      | ok => exact absurd h2 h'
      | sinkError => simp [uploadFileGo, h, h2]
      | readError => simp [uploadFileGo, h, h2]
    | readError =>
      have h' : env' c ≠ .ok := fun hh => by
        rw [(hiff c).mpr hh] at h; cases h
      cases h2 : env' c with
      | ok => exact absurd h2 h'
      | sinkError => simp [uploadFileGo, h, h2]
      | readError => simp [uploadFileGo, h, h2]
  | succ n ih =>
    intro c
    obtain ⟨e1, e2, e3, e4, e5⟩ := ih (c + 1)
    cases h : env c with
    | ok =>
      have h' : env' c = .ok := (hiff c).mp h
      simp [uploadFileGo, h, h']
    | sinkError =>
      have h' : env' c ≠ .ok := fun hh => by
        rw [(hiff c).mpr hh] at h; cases h
      cases h2 : env' c with
      | ok => exact absurd h2 h'
      | sinkError => simp [uploadFileGo, h, h2, e1, e2, e3, e4, e5]
      | readError => simp [uploadFileGo, h, h2, e1, e2, e3, e4, e5]
    | readError =>
      have h' : env' c ≠ .ok := fun hh => by
        rw [(hiff c).mpr hh] at h; cases h
      cases h2 : env' c with
      | ok => exact absurd h2 h'
      | sinkError => simp [uploadFileGo, h, h2, e1, e2, e3, e4, e5]
      | readError => simp [uploadFileGo, h, h2, e1, e2, e3, e4, e5]

theorem uploadFileGo_key_eq_sink (env : Nat → AttemptResult) (d : Nat) :
    ∀ remaining retryCount,
      (uploadFileGo env d remaining retryCount).keyComputations
        = (uploadFileGo env d remaining retryCount).sinkCalls := by
  intro remaining
  induction remaining with
  | zero => intro c; cases h : env c <;> simp [uploadFileGo, h]
  | succ n ih => intro c; cases h : env c <;> simp [uploadFileGo, h, ih (c + 1)]

/-- Claim C10: a failure to read the file's bytes (or any other exception
raised before the sink call) is handled exactly like a sink failure: (i) two
attempt environments that fail on the same attempts give the same retry
behaviour — same terminal outcome, same number of attempts (reads), same
total back-off sleep, same single counter increment — regardless of which
step failed; (ii) a unit whose read fails on every attempt performs `r + 1`
reads, zero sink calls, sleeps `retryDelayMs` between consecutive attempts
(`r * d` ms in total), and is counted as failed exactly once; (iii) the key
and content type are recomputed afresh on exactly the attempts that get past
the read (those that perform the sink call), never cached across retries. -/
theorem uploadFile_read_failure_like_sink (d r : Nat) :
    (∀ env env' : Nat → AttemptResult, (∀ i, env i = .ok ↔ env' i = .ok) →
      (uploadFile env d r 0).success = (uploadFile env' d r 0).success
      ∧ (uploadFile env d r 0).readCalls = (uploadFile env' d r 0).readCalls
      ∧ (uploadFile env d r 0).sleepMs = (uploadFile env' d r 0).sleepMs
      ∧ (uploadFile env d r 0).uploadedInc = (uploadFile env' d r 0).uploadedInc
      ∧ (uploadFile env d r 0).failedInc = (uploadFile env' d r 0).failedInc)
    ∧ (∀ env : Nat → AttemptResult, (∀ i, i ≤ r → env i = .readError) →
        uploadFile env d r 0 = ⟨false, 0, r + 1, 0, r * d, 0, 1⟩)
    ∧ (∀ env : Nat → AttemptResult,
        (uploadFile env d r 0).keyComputations = (uploadFile env d r 0).sinkCalls) := by
  refine ⟨?_, ?_, ?_⟩
  · intro env env' hiff
    exact uploadFileGo_failEquiv env env' d hiff (r - 0) 0
  · intro env h
    unfold uploadFile
    rw [Nat.sub_zero]
    exact uploadFileGo_allReadFail env d r 0 (fun i _ h2 => h i (by omega))
  · intro env
    exact uploadFileGo_key_eq_sink env d (r - 0) 0

/-- Witness for C10 at `retryDelay = 5`, `retryAttempts = 1`: an
always-read-failing unit and an always-sink-failing unit sleep the same total
time, and the former makes 2 reads, 0 sink calls, 1 failure increment. -/
theorem uploadFile_read_failure_like_sink_witness :
    (uploadFile (fun _ => AttemptResult.readError) 5 1 0).sleepMs
        = (uploadFile (fun _ => AttemptResult.sinkError) 5 1 0).sleepMs
    ∧ uploadFile (fun _ => AttemptResult.readError) 5 1 0 = ⟨false, 0, 2, 0, 5, 0, 1⟩ :=
  ⟨((uploadFile_read_failure_like_sink 5 1).1
      (fun _ => AttemptResult.readError) (fun _ => AttemptResult.sinkError)
      (fun i => ⟨(fun h => nomatch h), (fun h => nomatch h)⟩)).2.2.1,
   (uploadFile_read_failure_like_sink 5 1).2.1
      (fun _ => AttemptResult.readError) (fun i _ => rfl)⟩

/-- An absolute filesystem path in resolved form, modelled as its list of
segments. Node's `path.relative` resolves both arguments and then compares
them segment by segment, which this representation captures directly (posix
separators; entry names cannot contain the separator). -/
abbrev FsPath := List String

/-- Segment-level core of `path.relative(from, to)` (used at src line 140):
strip the longest common leading run of segments, returning what is left of
each side. -/
def dropCommon : FsPath → FsPath → FsPath × FsPath
  | a :: as, b :: bs => if a = b then dropCommon as bs else (a :: as, b :: bs)
  | as, bs => (as, bs)

/-- `path.relative(fromPath, toPath)` on resolved absolute paths: one `..`
for every segment of `fromPath` past the common prefix, followed by the
remaining segments of `toPath`. It is a total function — Node's
`path.relative` never throws on two paths. -/
def pathRelative (fromPath toPath : FsPath) : List String :=
  let rest := dropCommon fromPath toPath
  List.replicate rest.1.length ".." ++ rest.2

/-- Render a relative segment list the way Node's posix `path.relative`
renders its result: segments joined by `/` (empty for the empty list). -/
def joinSegs : List String → String
  | [] => ""
  | [s] => s
  | s :: rest => s ++ "/" ++ joinSegs rest

/-- The `.replace(/\\/g, '/')` of src line 141: every backslash character of
the rendered relative path is rewritten to `/`. On Windows this normalizes
the separators `path.relative` emits; on posix — where `\` is not a
separator and may legally occur inside an entry name — it rewrites those
literal backslashes too. -/
def replaceBackslashes (s : String) : String :=
  ⟨s.data.map (fun ch => if ch = '\\' then '/' else ch)⟩

/-- Lines 140-141:
`s3Key = path.relative(config.baseDir, filePath).replace(/\\/g, '/')`. -/
def resolveKey (baseDir filePath : FsPath) : String :=
  replaceBackslashes (joinSegs (pathRelative baseDir filePath))

/-- The Path Resolver as the spec words it for claim C5 (spec section 4.1):
the key is the path of `absolutePath` relative to `baseDir`, and resolution
fails with `InvalidPathError` (here `none`) whenever `absolutePath` is not
under `baseDir`. Stated only to compare against the code's `resolveKey`. -/
def resolveKeySpec (baseDir filePath : FsPath) : Option String :=
  if baseDir <+: filePath then some (joinSegs (filePath.drop baseDir.length))
  else none

theorem dropCommon_fst_nil_iff :
    ∀ a b : FsPath, (dropCommon a b).1 = [] ↔ a <+: b := by
  intro a
  induction a with
  | nil => intro b; cases b <;> simp [dropCommon]
  | cons x xs ih =>
    intro b
    cases b with
    | nil => simp [dropCommon]
    | cons y ys =>
      by_cases hxy : x = y
      · subst hxy
        rw [dropCommon, if_pos rfl]
        rw [ih ys]
        exact ⟨fun h => List.cons_prefix_cons.mpr ⟨rfl, h⟩,
          fun h => (List.cons_prefix_cons.mp h).2⟩
      · rw [dropCommon, if_neg hxy]
        simp only [List.cons_prefix_cons]
        constructor
        · intro h; cases h
        · intro h; exact absurd h.1 hxy

theorem dropCommon_append (b : FsPath) :
    ∀ rest : List String, dropCommon b (b ++ rest) = ([], rest) := by
  induction b with
  | nil => intro rest; cases rest <;> simp [dropCommon]
  | cons x xs ih => intro rest; simpa [dropCommon] using ih rest

theorem joinSegs_head (s : String) (rest : List String) (hs : s.data ≠ []) :
    (joinSegs (s :: rest)).data.head? = s.data.head? := by
  cases rest with
  | nil => rfl
  | cons t u =>
    show ((s ++ "/" ++ joinSegs (t :: u)).data).head? = s.data.head?
    rw [String.data_append, String.data_append]
    rw [List.append_assoc]
    exact List.head?_append_of_ne_nil s.data hs

/-- Claim C5 counterexample: `/home/user/other/x.txt` is not under
`/home/user/base`, and the spec's resolver therefore demands a failure with
`InvalidPathError`; but the code's key resolution (src line 140,
`path.relative`) cannot fail — it returns the parent-traversal key
`../other/x.txt`. -/
theorem resolveKey_no_failure_counterexample :
    ¬ (["home", "user", "base"] : FsPath) <+: ["home", "user", "other", "x.txt"]
    ∧ resolveKeySpec ["home", "user", "base"] ["home", "user", "other", "x.txt"]
        = none
    ∧ resolveKey ["home", "user", "base"] ["home", "user", "other", "x.txt"]
        = "../other/x.txt" := by
  refine ⟨by decide, by decide, ?_⟩
  rfl

/-- Claim C5 amended: for every `baseDir` and `absolutePath` with
`absolutePath` not under `baseDir`, `resolveKey` does not fail — it is total
and returns a key whose leading segment is the parent traversal `..`
(`path.relative` never throws; no `InvalidPathError` exists in the code). -/
theorem resolveKey_total_not_under (baseDir filePath : FsPath)
    (h : ¬ baseDir <+: filePath) :
    ∃ rest, pathRelative baseDir filePath = ".." :: rest
      ∧ resolveKey baseDir filePath = replaceBackslashes (joinSegs (".." :: rest)) := by
  have hne : (dropCommon baseDir filePath).1 ≠ [] :=
    fun hh => h ((dropCommon_fst_nil_iff baseDir filePath).mp hh)
  obtain ⟨z, zs, hl⟩ : ∃ z zs, (dropCommon baseDir filePath).1 = z :: zs := by
    cases hl : (dropCommon baseDir filePath).1 with
    | nil => exact absurd hl hne
    | cons z zs => exact ⟨z, zs, rfl⟩
  have h1 : pathRelative baseDir filePath
      = ".." :: (List.replicate zs.length ".." ++ (dropCommon baseDir filePath).2) := by
    have hdef : pathRelative baseDir filePath
        = List.replicate (dropCommon baseDir filePath).1.length ".."
            ++ (dropCommon baseDir filePath).2 := rfl
    rw [hdef, hl, List.length_cons, List.replicate_succ, List.cons_append]
  exact ⟨List.replicate zs.length ".." ++ (dropCommon baseDir filePath).2, h1,
    by show replaceBackslashes (joinSegs (pathRelative baseDir filePath)) = _
       rw [h1]⟩

/-- Witness for the amended C5 at the counterexample's input. -/
theorem resolveKey_total_not_under_witness :
    ¬ (["home", "user", "base"] : FsPath) <+: ["home", "user", "other", "x.txt"]
    ∧ ∃ rest,
        pathRelative ["home", "user", "base"] ["home", "user", "other", "x.txt"]
          = ".." :: rest
        ∧ resolveKey ["home", "user", "base"] ["home", "user", "other", "x.txt"]
          = replaceBackslashes (joinSegs (".." :: rest)) :=
  ⟨by decide,
   resolveKey_total_not_under ["home", "user", "base"]
      ["home", "user", "other", "x.txt"] (by decide)⟩

theorem joinSegs_mem_data :
    ∀ (segs : List String) (ch : Char), ch ∈ (joinSegs segs).data →
      ch = '/' ∨ ∃ s ∈ segs, ch ∈ s.data := by
  intro segs
  induction segs with
  | nil => intro ch hch; simp [joinSegs] at hch
  | cons s rest ih =>
    cases rest with
    | nil =>
      intro ch hch
      right
      exact ⟨s, List.mem_cons_self .., hch⟩
    | cons t u =>
      intro ch hch
      have hch2 : ch ∈ (s ++ "/" ++ joinSegs (t :: u)).data := hch
      rw [String.data_append, String.data_append] at hch2
      rcases List.mem_append.mp hch2 with h1 | h2
      · rcases List.mem_append.mp h1 with ha | hb
        · right; exact ⟨s, List.mem_cons_self .., ha⟩
        · left
          have hd : ("/" : String).data = ['/'] := rfl
          rw [hd] at hb
          simpa using hb
      · rcases ih ch h2 with h3 | ⟨s2, hs2, hcs⟩
        · left; exact h3
        · right; exact ⟨s2, List.mem_cons_of_mem _ hs2, hcs⟩

theorem replaceBackslashes_eq_self (s : String) (h : '\\' ∉ s.data) :
    replaceBackslashes s = s := by
  obtain ⟨data⟩ := s
  have hd : ∀ l : List Char, '\\' ∉ l →
      l.map (fun ch => if ch = '\\' then '/' else ch) = l := by
    intro l
    induction l with
    | nil => intro _; rfl
    | cons c cs ih =>
      intro hl
      have hc : ¬ c = '\\' := by
        intro hc
        subst hc
        exact hl (List.mem_cons_self ..)
      rw [List.map_cons, ih (fun hm => hl (List.mem_cons_of_mem _ hm)), if_neg hc]
  show String.mk (data.map (fun ch => if ch = '\\' then '/' else ch))
      = String.mk data
  rw [hd data h]

/-- Claim C6 counterexample: on posix a backslash is not a directory
separator and may legally occur inside a filename. For the file `a\\b.txt`
inside root folder `A` under base `/home`, the file's path relative to the
base directory with every platform separator normalized to `/` is
`A/a\\b.txt` — the literal backslash is no separator and stays — but the
`replace(/\\/g, '/')` of src line 141 rewrites it anyway, so the code
resolves the key to `A/a/b.txt`, which differs from the claimed key. -/
theorem resolveKey_backslash_counterexample :
    resolveKey ["home"] (["home"] ++ ["A", "a\\b.txt"]) = "A/a/b.txt"
    ∧ joinSegs ["A", "a\\b.txt"] = "A/a\\b.txt"
    ∧ resolveKey ["home"] (["home"] ++ ["A", "a\\b.txt"])
        ≠ joinSegs ["A", "a\\b.txt"] := by
  refine ⟨rfl, rfl, ?_⟩
  decide

/-- Claim C6 amended: an uploaded file's absolute path has the form
`baseDir ++ rest` for a nonempty list `rest` of directory-entry segments
(each nonempty and free of the separator `/`). Its object key is the file's
path relative to `baseDir` joined by `/` with every backslash character —
separator or not — additionally rewritten to `/` (src line 141); when no
entry name contains a literal backslash (always the case on Windows, and
the usual case on posix) the key is exactly the relative path joined by
`/`, and it never begins with a separator or a root component: its first
character is the first character of the first entry name, never `/`. -/
theorem resolveKey_relative_amended (baseDir : FsPath) (rest : List String)
    (hne : rest ≠ [])
    (hseg : ∀ s ∈ rest, s.data ≠ [] ∧ '/' ∉ s.data) :
    resolveKey baseDir (baseDir ++ rest) = replaceBackslashes (joinSegs rest)
    ∧ ((∀ s ∈ rest, '\\' ∉ s.data) →
        resolveKey baseDir (baseDir ++ rest) = joinSegs rest
        ∧ ∀ ch, (resolveKey baseDir (baseDir ++ rest)).data.head? = some ch →
            ch ≠ '/') := by
  have hrel : pathRelative baseDir (baseDir ++ rest) = rest := by
    unfold pathRelative
    rw [dropCommon_append baseDir rest]
    rfl
  have hkey : resolveKey baseDir (baseDir ++ rest)
      = replaceBackslashes (joinSegs rest) := by
    unfold resolveKey
    rw [hrel]
  refine ⟨hkey, ?_⟩
  intro hnb
  have hnbj : '\\' ∉ (joinSegs rest).data := by
    intro hmem
    rcases joinSegs_mem_data rest '\\' hmem with h1 | ⟨s2, hs2, hcs⟩
    · exact absurd h1 (by decide)
    · exact hnb s2 hs2 hcs
  have hkey2 : resolveKey baseDir (baseDir ++ rest) = joinSegs rest := by
    rw [hkey, replaceBackslashes_eq_self _ hnbj]
  refine ⟨hkey2, ?_⟩
  intro ch hch
  obtain ⟨s, t, rfl⟩ : ∃ s t, rest = s :: t := by
    cases rest with
    | nil => exact absurd rfl hne
    | cons s t => exact ⟨s, t, rfl⟩
  obtain ⟨hs, hslash⟩ := hseg s (List.mem_cons_self ..)
  rw [hkey2, joinSegs_head s t hs] at hch
  intro hcontra
  subst hcontra
  exact hslash (List.mem_of_mem_head? hch)

/-- Witness for the amended C6: the backslash-free file `a.txt` inside root
folder `A` under base directory `/home` gets key `A/a.txt`, not starting
with a separator. -/
theorem resolveKey_relative_amended_witness :
    ((["A", "a.txt"] : List String) ≠ []
      ∧ (∀ s ∈ (["A", "a.txt"] : List String), s.data ≠ [] ∧ '/' ∉ s.data)
      ∧ (∀ s ∈ (["A", "a.txt"] : List String), '\\' ∉ s.data))
    ∧ (resolveKey ["home"] (["home"] ++ ["A", "a.txt"]) = joinSegs ["A", "a.txt"]
      ∧ ∀ ch, (resolveKey ["home"] (["home"] ++ ["A", "a.txt"])).data.head?
          = some ch → ch ≠ '/') :=
  ⟨⟨by decide, by decide, by decide⟩,
   (resolveKey_relative_amended ["home"] ["A", "a.txt"] (by decide)
      (by decide)).2 (by decide)⟩

/-- A filesystem node as seen by the scanner: `file` and `dir` correspond to
`entry.isFile()` and `entry.isDirectory()` (src lines 78-82); `other` covers
every remaining entry kind (symlink, socket, device), which the loop ignores.
A `dir` carries `readable = false` when `fs.readdirSync` on it throws (e.g. a
permission error), the case the `catch` at src lines 84-86 handles. -/
inductive FsEntry where
  | file (name : String)
  | dir (name : String) (readable : Bool) (entries : List FsEntry)
  | other (name : String)
deriving Repr

/-- The `entry.name` field used to build `fullPath` (src line 76). -/
def entryName : FsEntry → String
  | .file n => n
  | .dir n _ _ => n
  | .other n => n

mutual
/-- `scanDir(currentDir)` (src lines 71-87) on the node the filesystem holds
at `currentDir`, returning `(files pushed, directories whose readdirSync
threw)`. An unreadable directory — or a non-directory root, on which
`readdirSync` also throws — logs one error for `currentDir` and contributes
nothing; the caller continues with its remaining entries. -/
def scanDir (currentDir : FsPath) : FsEntry → List FsPath × List FsPath
  | .dir _ true entries => scanEntries currentDir entries
  | _ => ([], [currentDir])

/-- The `for (const entry of entries)` loop body (src lines 75-83):
directories recurse into `scanDir(fullPath)`, files push `fullPath`, other
entry kinds are skipped; results accumulate in listing order. -/
def scanEntries (currentDir : FsPath) : List FsEntry → List FsPath × List FsPath
  | [] => ([], [])
  | e :: rest =>
    let res :=
      match e with
      | .dir n rd es => scanDir (currentDir ++ [n]) (.dir n rd es)
      | .file n => ([currentDir ++ [n]], [])
      | .other _ => ([], [])
    let more := scanEntries currentDir rest
    (res.1 ++ more.1, res.2 ++ more.2)
end

/-- What `fs.existsSync(path.join(baseDir, folder))` finds (src lines 91-92
and 197), with the filesystem under `baseDir` modelled as its entry list:
the first entry named `folder`, if any. -/
def lookupEntry (name : String) (entries : List FsEntry) : Option FsEntry :=
  entries.find? (fun e => entryName e == name)

/-- The observable outputs of `getAllFiles` (src lines 67-101): the
accumulated `allFiles`, the `console.warn` skip warnings of line 95 (one
folder name each), and the scan-error logs of line 85 (one directory path
each). -/
structure ScanOutput where
  allFiles : List FsPath
  warnings : List String
  scanErrors : List FsPath
deriving Repr

/-- `getAllFiles(folders)` (src lines 67-101): for each folder in order, scan
it if it exists under `baseDir`, otherwise warn once and skip it. -/
def getAllFiles (folders : List String) (fsRoot : List FsEntry) (baseDir : FsPath) :
    ScanOutput :=
  match folders with
  | [] => ⟨[], [], []⟩
  | folder :: rest =>
    let more := getAllFiles rest fsRoot baseDir
    match lookupEntry folder fsRoot with
    | some e =>
      let r := scanDir (baseDir ++ [folder]) e
      ⟨r.1 ++ more.allFiles, more.warnings, r.2 ++ more.scanErrors⟩
    | none => ⟨more.allFiles, folder :: more.warnings, more.scanErrors⟩

/-- Src line 197: `FOLDERS_TO_UPLOAD.filter(folder => fs.existsSync(...))`;
`main` exits with code 1 exactly when this list is empty (lines 199-202). -/
def existingFolders (folders : List String) (fsRoot : List FsEntry) : List String :=
  folders.filter (fun f => (lookupEntry f fsRoot).isSome)

/-- The files a single configured root contributes to the scan: what
`scanDir(path.join(baseDir, folder))` pushes when the folder exists, nothing
when it does not (src lines 90-97). -/
def folderContribution (folder : String) (fsRoot : List FsEntry) (baseDir : FsPath) :
    List FsPath :=
  match lookupEntry folder fsRoot with
  | some e => (scanDir (baseDir ++ [folder]) e).1
  | none => []

theorem getAllFiles_warnings (fsRoot : List FsEntry) (baseDir : FsPath) :
    ∀ folders : List String,
      (getAllFiles folders fsRoot baseDir).warnings
        = folders.filter (fun f => (lookupEntry f fsRoot).isNone) := by
  intro folders
  induction folders with
  | nil => rfl
  | cons folder rest ih =>
    cases h : lookupEntry folder fsRoot with
    | some e => simp [getAllFiles, h, ih, List.filter_cons]
    | none => simp [getAllFiles, h, ih, List.filter_cons]

theorem getAllFiles_files (fsRoot : List FsEntry) (baseDir : FsPath) :
    ∀ folders : List String,
      (getAllFiles folders fsRoot baseDir).allFiles
        = folders.flatMap (fun f => folderContribution f fsRoot baseDir) := by
  intro folders
  induction folders with
  | nil => rfl
  | cons folder rest ih =>
    cases h : lookupEntry folder fsRoot with
    | some e => simp [getAllFiles, h, ih, folderContribution, List.flatMap_cons]
    | none => simp [getAllFiles, h, ih, folderContribution, List.flatMap_cons]

/-- Claim C7: a configured root `rt` that does not exist on disk contributes
zero tasks to the scan, produces exactly one skip warning (it is warned once
per occurrence in the configured list, which lists each root once), and the
run still proceeds past the root check of src lines 197-202 — meaning `main`
does not `process.exit(1)` — provided some other configured root exists. -/
theorem missing_root_skipped (folders : List String) (fsRoot : List FsEntry)
    (baseDir : FsPath) (rt : String)
    (hmiss : lookupEntry rt fsRoot = none)
    (honce : folders.count rt = 1)
    (hother : ∃ q ∈ folders, (lookupEntry q fsRoot).isSome) :
    folderContribution rt fsRoot baseDir = []
    ∧ (getAllFiles folders fsRoot baseDir).warnings.count rt = 1
    ∧ existingFolders folders fsRoot ≠ [] := by
  refine ⟨?_, ?_, ?_⟩
  · unfold folderContribution
    rw [hmiss]
  · rw [getAllFiles_warnings fsRoot baseDir folders]
    rw [List.count_filter (by rw [hmiss]; rfl)]
    exact honce
  · obtain ⟨q, hq, hsome⟩ := hother
    exact List.ne_nil_of_mem (List.mem_filter.mpr ⟨hq, hsome⟩)

/-- Witness for C7: configured roots `["A", "B"]` where only `A` exists on
disk (the spec's own scenario). -/
theorem missing_root_skipped_witness :
    (lookupEntry "B" [FsEntry.dir "A" true [FsEntry.file "a.txt"]] = none
      ∧ (["A", "B"] : List String).count "B" = 1
      ∧ ∃ q ∈ (["A", "B"] : List String),
          (lookupEntry q [FsEntry.dir "A" true [FsEntry.file "a.txt"]]).isSome)
    ∧ (folderContribution "B" [FsEntry.dir "A" true [FsEntry.file "a.txt"]] [] = []
      ∧ (getAllFiles ["A", "B"] [FsEntry.dir "A" true [FsEntry.file "a.txt"]]
          []).warnings.count "B" = 1
      ∧ existingFolders ["A", "B"] [FsEntry.dir "A" true [FsEntry.file "a.txt"]]
          ≠ []) :=
  ⟨⟨by rfl, by rfl, ⟨"A", by simp [lookupEntry, entryName]⟩⟩,
   missing_root_skipped ["A", "B"] [FsEntry.dir "A" true [FsEntry.file "a.txt"]]
      [] "B" (by rfl) (by rfl)
      ⟨"A", by simp [lookupEntry, entryName]⟩⟩

theorem scanEntries_append (currentDir : FsPath) :
    ∀ xs ys : List FsEntry,
      scanEntries currentDir (xs ++ ys)
        = ((scanEntries currentDir xs).1 ++ (scanEntries currentDir ys).1,
           (scanEntries currentDir xs).2 ++ (scanEntries currentDir ys).2) := by
  intro xs ys
  induction xs with
  | nil => simp [scanEntries]
  | cons e rest ih =>
    rw [List.cons_append]
    cases e with
    | file n => simp [scanEntries, ih, List.append_assoc]
    | dir n rd es => simp [scanEntries, ih, List.append_assoc]
    | other n => simp [scanEntries, ih, List.append_assoc]

/-- Claim C9: a directory that cannot be listed never aborts the scan. If a
readable directory's entries contain an unreadable subdirectory `n` between
`pre` and `post`, the scan of that directory returns exactly the files found
under `pre` and `post` — everything discovered elsewhere is still returned —
and logs exactly one error, for the unreadable subdirectory's path, between
the errors of `pre` and `post`. -/
theorem scanDir_skips_unreadable (currentDir : FsPath) (m : String)
    (pre post : List FsEntry) (n : String) (es : List FsEntry) :
    scanDir currentDir (.dir m true (pre ++ .dir n false es :: post))
      = ((scanEntries currentDir pre).1 ++ (scanEntries currentDir post).1,
         (scanEntries currentDir pre).2
           ++ (currentDir ++ [n]) :: (scanEntries currentDir post).2) := by
  have hbad : scanEntries currentDir (FsEntry.dir n false es :: post)
      = ((scanEntries currentDir post).1,
         (currentDir ++ [n]) :: (scanEntries currentDir post).2) := by
    simp only [scanEntries, scanDir]
    simp
  show scanEntries currentDir (pre ++ FsEntry.dir n false es :: post) = _
  rw [scanEntries_append currentDir pre (FsEntry.dir n false es :: post), hbad]

/-- Classification of the tail of `main` (src lines 208-233): either the run
exits early because no files were found, or it reaches the summary and
reports an average speed. -/
inductive SummaryOutcome where
  | exitedZeroFiles
  | speed (filesPerSecond : Option ℤ)
deriving DecidableEq, Repr

/-- The `Average Speed` computation of src line 233,
`Math.round(uploadedFiles / duration)` with `duration = elapsedMs / 1000`
(line 226). The division is performed unconditionally; when the measured
duration is 0 ms, JavaScript yields `Infinity` (or `NaN` for `0 / 0`), which
no rounding turns into a number — modelled as `none`. For a positive
duration the value is the rational `uploaded / (durationMs / 1000)` rounded
half-up, which is Mathlib's `round` (it agrees with `Math.round` on the
non-negative values arising here). -/
def averageSpeed (uploaded durationMs : Nat) : Option ℤ :=
  if durationMs = 0 then none
  else some (round ((uploaded : ℚ) / ((durationMs : ℚ) / 1000)))

/-- `main` after the scan (src lines 208-233): with `totalFiles === 0` it
prints `No files found to upload.` and calls `process.exit(0)` before any
timing or division (lines 208-211); otherwise it runs the batches and
reaches the summary, which computes the average speed unconditionally. -/
def mainSummary (totalFiles uploaded durationMs : Nat) : SummaryOutcome :=
  if totalFiles = 0 then .exitedZeroFiles
  else .speed (averageSpeed uploaded durationMs)

/-- Claim C4 counterexample: the code has no division-by-zero guard. A
completed 5-file run whose measured duration is 0 ms (a duration that rounds
to zero) reaches src line 233 and divides by zero; the result is not a
well-defined number (`Infinity` in JavaScript, `none` in the model), so the
claimed guard does not exist. -/
theorem averageSpeed_div_zero_counterexample :
    mainSummary 5 5 0 = .speed none := by rfl

/-- Claim C4 amended: the throughput computation carries no guard. A
completed run that reaches the summary yields a well-defined number exactly
when the measured duration is nonzero; with a measured duration of 0 ms it
divides by zero (`Infinity`/`NaN`); and a zero-file run never reaches the
computation because it exits at src line 210. -/
theorem mainSummary_throughput (t u d : Nat) :
    (t ≠ 0 → d ≠ 0 → ∃ v : ℤ, mainSummary t u d = .speed (some v))
    ∧ (t ≠ 0 → d = 0 → mainSummary t u d = .speed none)
    ∧ mainSummary 0 u d = .exitedZeroFiles := by
  refine ⟨?_, ?_, ?_⟩
  · intro ht hd
    exact ⟨round ((u : ℚ) / ((d : ℚ) / 1000)),
      by simp [mainSummary, averageSpeed, ht, hd]⟩
  · intro ht hd
    subst hd
    simp [mainSummary, averageSpeed, ht]
  · rfl

/-- Witness for the amended C4: a 1-file run taking 500 ms has a
well-defined average speed. -/
theorem mainSummary_throughput_witness :
    ((1 : Nat) ≠ 0 ∧ (500 : Nat) ≠ 0)
    ∧ ∃ v : ℤ, mainSummary 1 3 500 = .speed (some v) :=
  ⟨⟨by decide, by decide⟩,
   (mainSummary_throughput 1 3 500).1 (by decide) (by decide)⟩

end S3UploadFolders
